import Mathlib

/-!
A shallow embedding of the `cipher_four` SP-network engine from
`basic_spn.py`, together with proofs about its layers, its round
structure, its error behaviour and its key-cache handling.

Machine integers are modelled as `Nat` (all values handled by the cipher
are unsigned); fallible code returns `Except PyErr`; the engine's mutable
instance state (`_rounds`, `_round_keys`) is threaded explicitly as an
`Engine` value; the `SystemRandom` source used by `generate_keys` is an
explicit oracle `rand : Nat → Nat` supplying the successive draws of one
call.  The `_vec_out` flag is fixed to its default `False` throughout
(no claim concerns vector-formatted output).
-/

set_option maxRecDepth 4000

namespace CipherFour

/-- The Python-level exceptions the engine can raise.
`valueError` is the `ValueError("Value of the state ... is not allowed")`
guard, `typeError` the `TypeError` produced by `state ^ round_key` on a
non-integer key (or by `iter_to_int` on a non-iterable input),
`indexError` a `list index out of range` from `round_keys[i]`,
`keyLenError` the setter's `Exception("Not enough keys ...")`
(the spec's `InsufficientKeyMaterial`), and `missingKey` the
`Exception("You want to decrypt something without a key? How cheeky.")`
(the spec's `MissingKeyMaterial`). -/
inductive PyErr where
  | valueError
  | typeError
  | indexError
  | keyLenError
  | missingKey
deriving DecidableEq

instance (ε α : Type) [DecidableEq ε] [DecidableEq α] : DecidableEq (Except ε α) := fun a b =>
  match a, b with
  | .ok x, .ok y =>
    if h : x = y then .isTrue (by rw [h]) else .isFalse (by intro hc; cases hc; exact h rfl)
  | .error x, .error y =>
    if h : x = y then .isTrue (by rw [h]) else .isFalse (by intro hc; cases hc; exact h rfl)
  | .ok _, .error _ => .isFalse (by intro hc; cases hc)
  | .error _, .ok _ => .isFalse (by intro hc; cases hc)

/-- A block / round-key argument as the Python code accepts it: a plain
integer, an iterable of binary digits, or any other object (neither an
integer nor iterable, so `iter_to_int` raises `TypeError` on it). -/
inductive KeyInput where
  | int (n : Nat)
  | bits (l : List Nat)
  | bad
deriving DecidableEq

/-- Sage `ZZ(list(state), 2)`: interpret a digit list little-endian in base 2. -/
def bitsToInt (l : List Nat) : Nat := Nat.ofDigits 2 l

/-- Static method `cipher_four.iter_to_int`: integers pass through, iterables are
converted via `ZZ(list(state), 2)`, anything else raises `TypeError`. -/
def iter_to_int : KeyInput → Except PyErr Nat
  | .int n => .ok n
  | .bits l => .ok (bitsToInt l)
  | .bad => .error .typeError

/-- The fixed substitution table
`SBox(6, 4, 0xc, 5, 0, 7, 2, 0xe, 1, 0xf, 3, 0xd, 8, 0xa, 9, 0xb)`. -/
def sboxTable : List Nat := [6, 4, 12, 5, 0, 7, 2, 14, 1, 15, 3, 13, 8, 10, 9, 11]

/-- Forward S-box lookup on a nibble. -/
def sbox (n : Nat) : Nat := sboxTable.getD n 0

/-- Inverse S-box `self._sbox.inverse()`: the position of `n` in the forward table. -/
def invSbox (n : Nat) : Nat := sboxTable.findIdx (fun x => x == n)

/-- The permutation table `[i+4*j for i in range(4) for j in range(4)]`. -/
def pbox : List Nat := (List.range 4).flatMap (fun i => (List.range 4).map (fun j => i + 4 * j))

/-- The `state and not state % (0xffff + 1)` sanity check shared by the
layers: a nonzero multiple of 65536 is rejected. -/
def invalidState (state : Nat) : Prop := state ≠ 0 ∧ state % 65536 = 0

instance (state : Nat) : Decidable (invalidState state) := by
  unfold invalidState; infer_instance

/-- The loop body of `sbox_layer`: `res |= sbox(nib) << i` over the four
nibble offsets, with the table chosen by the `inverse` flag. -/
def sboxLayerPure (state : Nat) (inverse : Bool) : Nat :=
  List.foldl
    (fun res i => res ||| (((if inverse then invSbox else sbox) ((state >>> i) &&& 0xf)) <<< i))
    0 [0, 4, 8, 12]

/-- Method `cipher_four.sbox_layer`: sanity check, then per-nibble substitution. -/
def sbox_layer (state : Nat) (inverse : Bool) : Except PyErr Nat :=
  if invalidState state then .error .valueError else .ok (sboxLayerPure state inverse)

/-- The loop body of `perm_layer`: for every `(bit_index, perm_index)` in
`enumerate(self._pbox)`, copy a set input bit to its permuted position. -/
def permLayerPure (state : Nat) : Nat :=
  List.foldl
    (fun p_state bp => if state &&& (1 <<< bp.1) ≠ 0 then p_state ||| (1 <<< bp.2) else p_state)
    0 pbox.enum

/-- Method `cipher_four.perm_layer`: sanity check, then the bit permutation. -/
def perm_layer (state : Nat) : Except PyErr Nat :=
  if invalidState state then .error .valueError else .ok (permLayerPure state)

/-- Whether `add_round_key` reaches its `except TypeError: print(...)`
branch, i.e. merely logs a warning about the key's type. -/
def add_round_key_warns (round_key : KeyInput) : Bool :=
  match round_key with
  | .bad => true
  | _ => false

/-- Method `cipher_four.add_round_key`: sanity check on the state, normalisation
of the key, then XOR.  A key that `iter_to_int` cannot convert is only
reported by a `print`; the subsequent `state ^ round_key` then raises an
incidental `TypeError`. -/
def add_round_key (state : Nat) (round_key : KeyInput) : Except PyErr Nat :=
  if invalidState state then .error .valueError
  else
    match round_key with
    | .int n => .ok (state ^^^ n)
    | .bits l => .ok (state ^^^ bitsToInt l)
    | .bad => .error .typeError

/-- Method `cipher_four.round`: the full round (mix, substitute, permute), or its
inverse (permute, inverse-substitute, mix). -/
def round (state : Nat) (round_key : KeyInput) (inverse : Bool) : Except PyErr Nat :=
  if inverse then do
    let s ← perm_layer state
    let s ← sbox_layer s true
    add_round_key s round_key
  else do
    let s ← add_round_key state round_key
    let s ← sbox_layer s false
    perm_layer s

/-- Method `cipher_four.generate_keys`: `rounds + 1` draws of
`SystemRandom().randrange(0xffff)`; the oracle `rand` supplies the raw
draws and `% 0xffff` records that the top value 65535 is excluded. -/
def generate_keys (rounds : Nat) (rand : Nat → Nat) : List KeyInput :=
  (List.range (rounds + 1)).map (fun i => KeyInput.int (rand i % 0xffff))

/-- The engine instance state relevant to the claims: `_rounds` and the
cached `_round_keys` (`_pbox`, `_sbox` are the fixed tables above and
`_vec_out` is fixed to `False`). -/
structure Engine where
  rounds : Nat
  round_keys : Option (List KeyInput)
deriving DecidableEq

/-- The `round_keys` property setter: raises `Exception("Not enough
keys ...")` when fewer than `self._rounds` keys are assigned. -/
def set_round_keys (e : Engine) (keys : List KeyInput) : Except PyErr Engine :=
  if keys.length < e.rounds then .error .keyLenError
  else .ok ⟨e.rounds, some keys⟩

/-- Python list indexing `l[i]` for a nonnegative index: `IndexError`
when out of range. -/
def getIdx (l : List KeyInput) (i : Nat) : Except PyErr KeyInput :=
  if h : i < l.length then .ok (l.get ⟨i, h⟩) else .error .indexError

/-- The `encrypt` pipeline after key selection: the full round for each
key in `round_keys[:rounds-1]`, then mix with `round_keys[rounds-1]`,
substitute, and mix with `round_keys[rounds]`. -/
def encryptBody (R : Nat) (ks : List KeyInput) (state : Nat) : Except PyErr Nat := do
  let s ← List.foldlM (fun st k => round st k false) state (ks.take (R - 1))
  let kA ← getIdx ks (R - 1)
  let s ← add_round_key s kA
  let s ← sbox_layer s false
  let kB ← getIdx ks R
  add_round_key s kB

/-- The key list traversed by decrypt's loop `round_keys[rounds-2::-1]`.
For `rounds ≥ 2` this is the first `rounds - 1` keys in reverse; for
`rounds = 1` the Python start index `rounds - 2 = -1` wraps around to the
last element, so the loop walks the WHOLE key list in reverse. -/
def decLoopKeys (R : Nat) (ks : List KeyInput) : List KeyInput :=
  if 2 ≤ R then (ks.take (R - 1)).reverse else ks.reverse

/-- The `decrypt` pipeline after key selection: mix with
`round_keys[rounds]`, inverse-substitute, mix with `round_keys[rounds-1]`,
then the inverse round for each key of `round_keys[rounds-2::-1]`. -/
def decryptBody (R : Nat) (ks : List KeyInput) (state : Nat) : Except PyErr Nat := do
  let kB ← getIdx ks R
  let s ← add_round_key state kB
  let s ← sbox_layer s true
  let kA ← getIdx ks (R - 1)
  let s ← add_round_key s kA
  List.foldlM (fun st k => round st k true) s (decLoopKeys R ks)

/-- The `if not round_keys:` test in `encrypt`: true for `None` and for
an empty list. -/
def keysOmitted (round_keys : Option (List KeyInput)) : Bool :=
  match round_keys with
  | none => true
  | some l => l.isEmpty

/-- Method `cipher_four.encrypt`: convert the plaintext, generate-and-cache a
fresh key set when none (or an empty list) was supplied, then run the
round pipeline.  Returns the engine state after the call next to the
result, since the key generation mutates the instance. -/
def encrypt (e : Engine) (plaintext : KeyInput) (round_keys : Option (List KeyInput))
    (rand : Nat → Nat) : Engine × Except PyErr Nat :=
  match iter_to_int plaintext with
  | .error err => (e, .error err)
  | .ok state =>
    if keysOmitted round_keys then
      let fresh := generate_keys e.rounds rand
      match set_round_keys e fresh with
      | .error err => (e, .error err)
      | .ok e1 => (e1, encryptBody e1.rounds fresh state)
    else
      match round_keys with
      | some ks => (e, encryptBody e.rounds ks state)
      | none => (e, .error .typeError)

/-- Method `cipher_four.decrypt`: convert the ciphertext, run the sanity check,
fall back to the cached keys when the argument is `None` (raising when
none are cached), then run the inverse pipeline.  Decrypt never mutates
the engine. -/
def decrypt (e : Engine) (ciphertext : KeyInput) (round_keys : Option (List KeyInput)) :
    Engine × Except PyErr Nat :=
  match iter_to_int ciphertext with
  | .error err => (e, .error err)
  | .ok state =>
    if invalidState state then (e, .error .valueError)
    else
      match round_keys with
      | some ks => (e, decryptBody e.rounds ks state)
      | none =>
        match e.round_keys with
        | none => (e, .error .missingKey)
        | some ks => (e, decryptBody e.rounds ks state)

/-- The "full round" of the spec, on plain 16-bit states: XOR-mix the
key, substitute each nibble, bit-permute. -/
def fullRound (s k : Nat) : Nat := permLayerPure (sboxLayerPure (s ^^^ k) false)

/-- The encryption pipeline exactly as the spec words it: the full round
for each of `k0 .. k(R-2)` fed forward, then mix with `k(R-1)`,
substitute, mix with `kR`. -/
def encryptSpec (R : Nat) (ks : List Nat) (p : Nat) : Nat :=
  sboxLayerPure (List.foldl fullRound p (ks.take (R - 1)) ^^^ ks.getD (R - 1) 0) false
    ^^^ ks.getD R 0

/-! ## Helper lemmas: bit-level characterisation of the permutation -/

lemma and_shift_ne_zero (s i : Nat) : s &&& (1 <<< i) ≠ 0 ↔ s.testBit i = true := by
  rw [Nat.one_shiftLeft, Nat.and_two_pow]
  cases h : s.testBit i <;> simp [Nat.pos_iff_ne_zero]

lemma permFold_testBit (s : Nat) (l : List (Nat × Nat)) (acc j : Nat) :
    (List.foldl (fun p bp => if s &&& (1 <<< bp.1) ≠ 0 then p ||| (1 <<< bp.2) else p) acc
        l).testBit j
      = (acc.testBit j || l.any (fun bp => s.testBit bp.1 && decide (bp.2 = j))) := by
  induction l generalizing acc with
  | nil => simp
  | cons hd tl ih =>
    rw [List.foldl_cons, ih, List.any_cons]
    by_cases h : s.testBit hd.1 = true
    · rw [if_pos ((and_shift_ne_zero s hd.1).mpr h)]
      rw [Nat.testBit_or, Nat.one_shiftLeft, Nat.testBit_two_pow, h]
      cases acc.testBit j <;> cases hj : decide (hd.2 = j) <;> simp [Bool.or_assoc]
    · have h' : ¬ s &&& (1 <<< hd.1) ≠ 0 := fun hc => h ((and_shift_ne_zero s hd.1).mp hc)
      rw [if_neg h']
      have hb : s.testBit hd.1 = false := by
        cases hb : s.testBit hd.1
        · rfl
        · exact absurd hb h
      simp [hb]

lemma permLayerPure_testBit (s j : Nat) :
    (permLayerPure s).testBit j
      = pbox.enum.any (fun bp => s.testBit bp.1 && decide (bp.2 = j)) := by
  unfold permLayerPure
  rw [permFold_testBit]
  simp

lemma pbox_eq :
    pbox = [0, 4, 8, 12, 1, 5, 9, 13, 2, 6, 10, 14, 3, 7, 11, 15] := by decide

lemma pbox_enum_eq :
    pbox.enum = [(0, 0), (1, 4), (2, 8), (3, 12), (4, 1), (5, 5), (6, 9), (7, 13),
      (8, 2), (9, 6), (10, 10), (11, 14), (12, 3), (13, 7), (14, 11), (15, 15)] := by decide

/-- The bit-position map of the P-box as a function. -/
def pboxFun (j : Nat) : Nat := pbox.getD j 0

lemma perm_testBit_lt (s j : Nat) (hj : j < 16) :
    (permLayerPure s).testBit j = s.testBit (pboxFun j) := by
  rw [permLayerPure_testBit, pbox_enum_eq]
  interval_cases j <;> simp [pboxFun, pbox_eq]

lemma permFold_lt_two_pow (s : Nat) (l : List (Nat × Nat)) (acc : Nat)
    (hacc : acc < 2 ^ 16) (hl : ∀ bp ∈ l, bp.2 < 16) :
    List.foldl (fun p bp => if s &&& (1 <<< bp.1) ≠ 0 then p ||| (1 <<< bp.2) else p) acc l
      < 2 ^ 16 := by
  induction l generalizing acc with
  | nil => simpa using hacc
  | cons hd tl ih =>
    rw [List.foldl_cons]
    refine ih _ ?_ (fun bp h => hl bp (List.mem_cons_of_mem _ h))
    by_cases h : s &&& (1 <<< hd.1) ≠ 0
    · rw [if_pos h]
      refine Nat.or_lt_two_pow hacc ?_
      rw [Nat.one_shiftLeft]
      exact Nat.pow_lt_pow_right (by norm_num) (hl hd (List.mem_cons_self _ _))
    · rw [if_neg h]; exact hacc

lemma permLayerPure_lt (s : Nat) : permLayerPure s < 2 ^ 16 := by
  unfold permLayerPure
  exact permFold_lt_two_pow s _ 0 (by norm_num) (by decide)

lemma pboxFun_lt : ∀ j < 16, pboxFun j < 16 := by decide

lemma pboxFun_invol : ∀ j < 16, pboxFun (pboxFun j) = j := by decide

lemma permLayerPure_invol (s : Nat) (hs : s < 2 ^ 16) :
    permLayerPure (permLayerPure s) = s := by
  apply Nat.eq_of_testBit_eq
  intro j
  by_cases hj : j < 16
  · rw [perm_testBit_lt _ _ hj, perm_testBit_lt _ _ (pboxFun_lt j hj), pboxFun_invol j hj]
  · have hle : 2 ^ 16 ≤ 2 ^ j := Nat.pow_le_pow_right (by norm_num) (by omega)
    rw [Nat.testBit_lt_two_pow (lt_of_lt_of_le (permLayerPure_lt _) hle),
      Nat.testBit_lt_two_pow (lt_of_lt_of_le hs hle)]

/-! ## Helper lemmas: substitution-layer bounds and error-free execution -/

lemma sbox_lt : ∀ n < 16, sbox n < 16 := by decide

lemma invSbox_lt : ∀ n < 16, invSbox n < 16 := by decide

lemma nib_lt (s i : Nat) : (s >>> i) &&& 0xf < 16 := by
  have h := Nat.and_lt_two_pow (s >>> i) (show (0xf : Nat) < 2 ^ 4 by norm_num)
  norm_num at h
  exact h

lemma sb_nib_lt (inverse : Bool) (s i : Nat) :
    (if inverse then invSbox else sbox) ((s >>> i) &&& 0xf) < 2 ^ 4 := by
  have hn := nib_lt s i
  cases inverse
  · simpa using sbox_lt _ hn
  · simpa using invSbox_lt _ hn

lemma sboxLayerPure_eq (s : Nat) (inverse : Bool) :
    sboxLayerPure s inverse =
      (((0 ||| ((if inverse then invSbox else sbox) ((s >>> 0) &&& 0xf)) <<< 0)
        ||| ((if inverse then invSbox else sbox) ((s >>> 4) &&& 0xf)) <<< 4)
        ||| ((if inverse then invSbox else sbox) ((s >>> 8) &&& 0xf)) <<< 8)
        ||| ((if inverse then invSbox else sbox) ((s >>> 12) &&& 0xf)) <<< 12 := rfl

lemma shifted_lt {x : Nat} (i : Nat) (hx : x < 2 ^ 4) (hi : 4 + i ≤ 16) : x <<< i < 2 ^ 16 :=
  lt_of_lt_of_le (Nat.shiftLeft_lt hx) (Nat.pow_le_pow_right (by norm_num) hi)

lemma sboxLayerPure_lt (s : Nat) (inverse : Bool) : sboxLayerPure s inverse < 65536 := by
  have h : sboxLayerPure s inverse < 2 ^ 16 := by
    rw [sboxLayerPure_eq]
    refine Nat.or_lt_two_pow (Nat.or_lt_two_pow (Nat.or_lt_two_pow (Nat.or_lt_two_pow
      (by norm_num) ?_) ?_) ?_) ?_
    · exact shifted_lt 0 (sb_nib_lt inverse s 0) (by norm_num)
    · exact shifted_lt 4 (sb_nib_lt inverse s 4) (by norm_num)
    · exact shifted_lt 8 (sb_nib_lt inverse s 8) (by norm_num)
    · exact shifted_lt 12 (sb_nib_lt inverse s 12) (by norm_num)
  norm_num at h
  exact h

lemma permLayerPure_lt65536 (s : Nat) : permLayerPure s < 65536 := by
  have h := permLayerPure_lt s
  norm_num at h
  exact h

lemma xor_lt65536 {s k : Nat} (hs : s < 65536) (hk : k < 65536) : s ^^^ k < 65536 := by
  have h : s ^^^ k < 2 ^ 16 :=
    Nat.xor_lt_two_pow (by norm_num; exact hs) (by norm_num; exact hk)
  norm_num at h
  exact h

lemma not_invalid_of_lt {s : Nat} (hs : s < 65536) : ¬ invalidState s := by
  rintro ⟨h0, hmod⟩
  rw [Nat.mod_eq_of_lt hs] at hmod
  exact h0 hmod

lemma sbox_layer_ok {s : Nat} (hs : s < 65536) (inverse : Bool) :
    sbox_layer s inverse = .ok (sboxLayerPure s inverse) := by
  unfold sbox_layer
  rw [if_neg (not_invalid_of_lt hs)]

lemma perm_layer_ok {s : Nat} (hs : s < 65536) :
    perm_layer s = .ok (permLayerPure s) := by
  unfold perm_layer
  rw [if_neg (not_invalid_of_lt hs)]

lemma add_round_key_ok {s : Nat} (hs : s < 65536) (k : Nat) :
    add_round_key s (.int k) = .ok (s ^^^ k) := by
  unfold add_round_key
  rw [if_neg (not_invalid_of_lt hs)]

lemma round_false_ok {s k : Nat} (hs : s < 65536) (hk : k < 65536) :
    round s (.int k) false = .ok (fullRound s k) ∧ fullRound s k < 65536 := by
  have h1 : s ^^^ k < 65536 := xor_lt65536 hs hk
  constructor
  · show (do
        let s1 ← add_round_key s (.int k)
        let s2 ← sbox_layer s1 false
        perm_layer s2) = Except.ok (fullRound s k)
    rw [add_round_key_ok hs k]
    show (do
        let s2 ← sbox_layer (s ^^^ k) false
        perm_layer s2) = Except.ok (fullRound s k)
    rw [sbox_layer_ok h1 false]
    show perm_layer (sboxLayerPure (s ^^^ k) false) = Except.ok (fullRound s k)
    rw [perm_layer_ok (sboxLayerPure_lt _ _)]
    rfl
  · exact permLayerPure_lt65536 _

lemma foldlM_round_ok (ks : List Nat) (s : Nat) (hs : s < 65536)
    (hks : ∀ k ∈ ks, k < 65536) :
    List.foldlM (fun st k => round st k false) s (ks.map KeyInput.int)
        = .ok (List.foldl fullRound s ks)
      ∧ List.foldl fullRound s ks < 65536 := by
  induction ks generalizing s with
  | nil => exact ⟨rfl, hs⟩
  | cons k tl ih =>
    have hk : k < 65536 := hks k (List.mem_cons_self _ _)
    have hr := round_false_ok hs hk
    have ihr := ih (fullRound s k) hr.2 (fun x hx => hks x (List.mem_cons_of_mem _ hx))
    refine ⟨?_, by simpa using ihr.2⟩
    rw [List.map_cons, List.foldlM_cons, hr.1]
    show (do
        List.foldlM (fun st k => round st k false) (fullRound s k) (tl.map KeyInput.int))
      = Except.ok (List.foldl fullRound (fullRound s k) tl)
    exact ihr.1

/-! ## Helper lemmas: the encrypt/decrypt pipelines on well-formed inputs -/

lemma take_mem_lt {ks : List Nat} (hks : ∀ k ∈ ks, k < 65536) (n : Nat) :
    ∀ k ∈ ks.take n, k < 65536 := fun k hk => hks k (List.take_subset n ks hk)

lemma getD_lt {ks : List Nat} (hks : ∀ k ∈ ks, k < 65536) {i : Nat} (h : i < ks.length) :
    ks.getD i 0 < 65536 := by
  rw [List.getD_eq_getElem?_getD, List.getElem?_eq_getElem h]
  exact hks _ (List.getElem_mem h)

lemma getIdx_map_ok {ks : List Nat} {i : Nat} (h : i < ks.length) :
    getIdx (ks.map KeyInput.int) i = .ok (.int (ks.getD i 0)) := by
  have hlen : i < (ks.map KeyInput.int).length := by simpa using h
  unfold getIdx
  rw [dif_pos hlen]
  rw [List.get_eq_getElem, List.getElem_map]
  rw [List.getD_eq_getElem?_getD, List.getElem?_eq_getElem h]
  rfl

lemma getIdx_err {l : List KeyInput} {i : Nat} (h : l.length ≤ i) :
    getIdx l i = .error .indexError := by
  unfold getIdx
  rw [dif_neg (by omega)]

lemma encryptBody_ok_of_full (R : Nat) (ks : List Nat) (hlen : ks.length = R + 1)
    (hks : ∀ k ∈ ks, k < 65536) (p : Nat) (hp : p < 65536) :
    encryptBody R (ks.map KeyInput.int) p = .ok (encryptSpec R ks p)
      ∧ encryptSpec R ks p < 65536 := by
  have hfold := foldlM_round_ok (ks.take (R - 1)) p hp (take_mem_lt hks _)
  have hA : R - 1 < ks.length := by omega
  have hB : R < ks.length := by omega
  have hkA : ks.getD (R - 1) 0 < 65536 := getD_lt hks hA
  have hkB : ks.getD R 0 < 65536 := getD_lt hks hB
  have h1 : List.foldl fullRound p (ks.take (R - 1)) ^^^ ks.getD (R - 1) 0 < 65536 :=
    xor_lt65536 hfold.2 hkA
  constructor
  · unfold encryptBody
    rw [← List.map_take, hfold.1]
    show (do
        let kA ← getIdx (ks.map KeyInput.int) (R - 1)
        let s ← add_round_key (List.foldl fullRound p (ks.take (R - 1))) kA
        let s ← sbox_layer s false
        let kB ← getIdx (ks.map KeyInput.int) R
        add_round_key s kB) = Except.ok (encryptSpec R ks p)
    rw [getIdx_map_ok hA]
    show (do
        let s ← add_round_key (List.foldl fullRound p (ks.take (R - 1)))
          (.int (ks.getD (R - 1) 0))
        let s ← sbox_layer s false
        let kB ← getIdx (ks.map KeyInput.int) R
        add_round_key s kB) = Except.ok (encryptSpec R ks p)
    rw [add_round_key_ok hfold.2]
    show (do
        let s ← sbox_layer (List.foldl fullRound p (ks.take (R - 1)) ^^^ ks.getD (R - 1) 0) false
        let kB ← getIdx (ks.map KeyInput.int) R
        add_round_key s kB) = Except.ok (encryptSpec R ks p)
    rw [sbox_layer_ok h1 false]
    show (do
        let kB ← getIdx (ks.map KeyInput.int) R
        add_round_key (sboxLayerPure
          (List.foldl fullRound p (ks.take (R - 1)) ^^^ ks.getD (R - 1) 0) false) kB)
      = Except.ok (encryptSpec R ks p)
    rw [getIdx_map_ok hB]
    show add_round_key (sboxLayerPure
        (List.foldl fullRound p (ks.take (R - 1)) ^^^ ks.getD (R - 1) 0) false)
        (.int (ks.getD R 0))
      = Except.ok (encryptSpec R ks p)
    rw [add_round_key_ok (sboxLayerPure_lt _ _)]
    rfl
  · exact xor_lt65536 (sboxLayerPure_lt _ _) hkB

lemma keysOmitted_false {ks : List KeyInput} (h : ks ≠ []) :
    keysOmitted (some ks) = false := by
  unfold keysOmitted
  cases ks with
  | nil => exact absurd rfl h
  | cons a l => rfl

lemma encrypt_int_some (e : Engine) (p : Nat) (ks : List KeyInput) (h : ks ≠ [])
    (rand : Nat → Nat) :
    encrypt e (.int p) (some ks) rand = (e, encryptBody e.rounds ks p) := by
  simp [encrypt, iter_to_int, keysOmitted_false h]

lemma generate_keys_length (R : Nat) (rand : Nat → Nat) :
    (generate_keys R rand).length = R + 1 := by
  unfold generate_keys
  rw [List.length_map, List.length_range]

lemma set_generate_ok (e : Engine) (rand : Nat → Nat) :
    set_round_keys e (generate_keys e.rounds rand)
      = .ok ⟨e.rounds, some (generate_keys e.rounds rand)⟩ := by
  unfold set_round_keys
  rw [if_neg (by rw [generate_keys_length]; omega)]

lemma encrypt_int_none (e : Engine) (p : Nat) (rand : Nat → Nat) :
    encrypt e (.int p) none rand
      = (⟨e.rounds, some (generate_keys e.rounds rand)⟩,
          encryptBody e.rounds (generate_keys e.rounds rand) p) := by
  simp [encrypt, iter_to_int, keysOmitted, set_generate_ok]

lemma decrypt_int_some (e : Engine) (c : Nat) (hc : c < 65536) (ks : List KeyInput) :
    decrypt e (.int c) (some ks) = (e, decryptBody e.rounds ks c) := by
  simp [decrypt, iter_to_int, not_invalid_of_lt hc]

lemma decrypt_int_none_cached (R : Nat) (ks : List KeyInput) (c : Nat) (hc : c < 65536) :
    decrypt ⟨R, some ks⟩ (.int c) none = (⟨R, some ks⟩, decryptBody R ks c) := by
  simp [decrypt, iter_to_int, not_invalid_of_lt hc]

lemma encryptBody_short_keys (R : Nat) (hR : 1 ≤ R) (ks : List Nat)
    (hlen : ks.length < R + 1) (hks : ∀ k ∈ ks, k < 65536) (p : Nat) (hp : p < 65536) :
    encryptBody R (ks.map KeyInput.int) p = .error PyErr.indexError := by
  have hfold := foldlM_round_ok (ks.take (R - 1)) p hp (take_mem_lt hks _)
  unfold encryptBody
  rw [← List.map_take, hfold.1]
  by_cases hcase : ks.length = R
  · have hA : R - 1 < ks.length := by omega
    show (do
        let kA ← getIdx (ks.map KeyInput.int) (R - 1)
        let s ← add_round_key (List.foldl fullRound p (ks.take (R - 1))) kA
        let s ← sbox_layer s false
        let kB ← getIdx (ks.map KeyInput.int) R
        add_round_key s kB) = Except.error PyErr.indexError
    rw [getIdx_map_ok hA]
    show (do
        let s ← add_round_key (List.foldl fullRound p (ks.take (R - 1)))
          (.int (ks.getD (R - 1) 0))
        let s ← sbox_layer s false
        let kB ← getIdx (ks.map KeyInput.int) R
        add_round_key s kB) = Except.error PyErr.indexError
    rw [add_round_key_ok hfold.2]
    show (do
        let s ← sbox_layer (List.foldl fullRound p (ks.take (R - 1)) ^^^ ks.getD (R - 1) 0) false
        let kB ← getIdx (ks.map KeyInput.int) R
        add_round_key s kB) = Except.error PyErr.indexError
    rw [sbox_layer_ok (xor_lt65536 hfold.2 (getD_lt hks hA)) false]
    show (do
        let kB ← getIdx (ks.map KeyInput.int) R
        add_round_key (sboxLayerPure
          (List.foldl fullRound p (ks.take (R - 1)) ^^^ ks.getD (R - 1) 0) false) kB)
      = Except.error PyErr.indexError
    rw [getIdx_err (by rw [List.length_map]; omega)]
    rfl
  · have hA : (ks.map KeyInput.int).length ≤ R - 1 := by rw [List.length_map]; omega
    show (do
        let kA ← getIdx (ks.map KeyInput.int) (R - 1)
        let s ← add_round_key (List.foldl fullRound p (ks.take (R - 1))) kA
        let s ← sbox_layer s false
        let kB ← getIdx (ks.map KeyInput.int) R
        add_round_key s kB) = Except.error PyErr.indexError
    rw [getIdx_err hA]
    rfl

lemma decryptBody_short_keys (R : Nat) (ks : List KeyInput) (hlen : ks.length ≤ R) (c : Nat) :
    decryptBody R ks c = .error PyErr.indexError := by
  unfold decryptBody
  rw [getIdx_err hlen]
  rfl

lemma decrypt_fst (e : Engine) (ct : KeyInput) (okeys : Option (List KeyInput)) :
    (decrypt e ct okeys).1 = e := by
  obtain ⟨R, rk⟩ := e
  cases ct <;> cases okeys <;> cases rk <;>
    simp only [decrypt, iter_to_int] <;>
    first
      | rfl
      | (split <;> rfl)

/-! ## The claims -/

/-- C1: the claimed round-trip `decrypt(encrypt(P, K), K) = P` FAILS at
`rounds = 1`.  With keys `[0, 0]` and plaintext `0`, encryption yields
`0x6666`, but decryption of `0x6666` yields `0x4944`, not `0`: decrypt's
loop slice `round_keys[rounds-2::-1]` becomes `round_keys[-1::-1]` for
`rounds = 1`, walking the whole reversed key list instead of no keys. -/
theorem c1_roundtrip_fails_at_rounds_one :
    (encrypt ⟨1, none⟩ (.int 0) (some [KeyInput.int 0, KeyInput.int 0]) (fun _ => 0)).2
        = .ok 0x6666
      ∧ (decrypt ⟨1, none⟩ (.int 0x6666) (some [KeyInput.int 0, KeyInput.int 0])).2
        = .ok 0x4944
      ∧ (0x4944 : Nat) ≠ 0 := by decide

/-- C2: for a round count `R ≥ 1`, a key list `k0 .. kR` of `R + 1`
in-range integers and an in-range plaintext, `encrypt` returns exactly the
spec's pipeline: the full round (mix, substitute, permute) folded over
`k0 .. k(R-2)`, then mix with `k(R-1)`, substitute, and mix with `kR`. -/
theorem c2_encrypt_round_structure (R : Nat) (hR : 1 ≤ R) (ks : List Nat)
    (hlen : ks.length = R + 1) (hks : ∀ k ∈ ks, k < 65536) (p : Nat) (hp : p < 65536)
    (rand : Nat → Nat) :
    (encrypt ⟨R, none⟩ (.int p) (some (ks.map KeyInput.int)) rand).2
      = .ok (encryptSpec R ks p) := by
  have hne : ks.map KeyInput.int ≠ [] := by
    intro hmap
    rw [List.map_eq_nil_iff.mp hmap] at hlen
    simp at hlen
  rw [encrypt_int_some _ _ _ hne]
  exact (encryptBody_ok_of_full R ks hlen hks p hp).1

/-- Witness for C2 at `rounds = 1`, keys `[5, 9]`, plaintext `3`. -/
theorem c2_encrypt_round_structure_witness :
    (encrypt ⟨1, none⟩ (.int 3) (some ([5, 9].map KeyInput.int)) (fun _ => 0)).2
      = .ok (encryptSpec 1 [5, 9] 3) :=
  c2_encrypt_round_structure 1 (by decide) [5, 9] (by decide) (by decide) 3 (by decide)
    (fun _ => 0)

/-- C3 counterexample: `encrypt` with 5 keys on a 5-round engine (fewer
than the required 6) raises `IndexError` from `round_keys[5]`, NOT the
`InsufficientKeyMaterial` error (`keyLenError`, the setter's "Not enough
keys") the claim names. -/
theorem c3_short_keys_counterexample :
    (encrypt ⟨5, none⟩ (.int 0) (some (List.replicate 5 (KeyInput.int 1))) (fun _ => 0)).2
        = .error PyErr.indexError
      ∧ PyErr.indexError ≠ PyErr.keyLenError := by decide

/-- C3 amended: calling `encrypt` or `decrypt` with a NON-EMPTY in-range
key sequence of fewer than `rounds + 1` keys raises an `IndexError` from
out-of-range key indexing (not `InsufficientKeyMaterial`, which only the
`round_keys` setter raises, and only below `rounds` keys). -/
theorem c3_amended_short_keys_raise_index_error (R : Nat) (hR : 1 ≤ R) (ks : List Nat)
    (hne : ks ≠ []) (hlen : ks.length < R + 1) (hks : ∀ k ∈ ks, k < 65536)
    (p : Nat) (hp : p < 65536) (rand : Nat → Nat) :
    (encrypt ⟨R, none⟩ (.int p) (some (ks.map KeyInput.int)) rand).2
        = .error PyErr.indexError
      ∧ (decrypt ⟨R, none⟩ (.int p) (some (ks.map KeyInput.int))).2
        = .error PyErr.indexError := by
  have hmapne : ks.map KeyInput.int ≠ [] := fun hmap => hne (List.map_eq_nil_iff.mp hmap)
  constructor
  · rw [encrypt_int_some _ _ _ hmapne]
    exact encryptBody_short_keys R hR ks hlen hks p hp
  · rw [decrypt_int_some _ _ hp]
    exact decryptBody_short_keys R _ (by rw [List.length_map]; omega) p

/-- Witness for the amended C3 at `rounds = 5` with the 5 keys
`[1, 1, 1, 1, 1]` and plaintext `0`. -/
theorem c3_amended_witness :
    (encrypt ⟨5, none⟩ (.int 0) (some ([1, 1, 1, 1, 1].map KeyInput.int)) (fun _ => 0)).2
        = .error PyErr.indexError
      ∧ (decrypt ⟨5, none⟩ (.int 0) (some ([1, 1, 1, 1, 1].map KeyInput.int))).2
        = .error PyErr.indexError :=
  c3_amended_short_keys_raise_index_error 5 (by decide) [1, 1, 1, 1, 1] (by decide)
    (by decide) (by decide) 0 (by decide) (fun _ => 0)

/-- C4: a round key that cannot be converted to an integer is only
reported by a `print` (the `except TypeError: print(...)` branch,
`add_round_key_warns`); no explicit `UnsupportedKeyType` error exists in
the code, and what the caller sees is the incidental `TypeError` raised
afterwards by `state ^ round_key` — here shown both for `add_round_key`
directly and surfacing through `encrypt`. -/
theorem c4_unconvertible_key_only_logged :
    add_round_key_warns KeyInput.bad = true
      ∧ add_round_key 0 KeyInput.bad = .error PyErr.typeError
      ∧ (encrypt ⟨1, none⟩ (.int 0) (some [KeyInput.bad, KeyInput.int 0]) (fun _ => 0)).2
        = .error PyErr.typeError := by decide

/-- C5 counterexample: two successive keyless `encrypt` calls on the same
engine each generate and cache a FRESH key set (here from oracle draws 7
then 9): the second call does not reuse the cached `[7, 7]` but replaces
it with `[9, 9]`. -/
theorem c5_keyless_encrypt_regenerates :
    ((encrypt ⟨1, none⟩ (.int 0) none (fun _ => 7)).1.round_keys
        = some [KeyInput.int 7, KeyInput.int 7])
      ∧ ((encrypt (encrypt ⟨1, none⟩ (.int 0) none (fun _ => 7)).1 (.int 0) none
          (fun _ => 9)).1.round_keys = some [KeyInput.int 9, KeyInput.int 9])
      ∧ (KeyInput.int 9) ≠ (KeyInput.int 7) := by decide

/-- C5 amended: EVERY keyless `encrypt` call generates a fresh key set
and caches it (overwriting any previous cache); only keyless `decrypt`
reuses the currently cached set, leaving the engine unchanged. -/
theorem c5_amended_keyless_behaviour (e : Engine) (p : Nat) (rand : Nat → Nat)
    (R : Nat) (ks : List KeyInput) (c : Nat) (hc : c < 65536) :
    (encrypt e (.int p) none rand).1.round_keys = some (generate_keys e.rounds rand)
      ∧ decrypt ⟨R, some ks⟩ (.int c) none = (⟨R, some ks⟩, decryptBody R ks c) := by
  constructor
  · rw [encrypt_int_none]
  · exact decrypt_int_none_cached R ks c hc

/-- Witness for the amended C5. -/
theorem c5_amended_witness :
    (encrypt ⟨1, none⟩ (.int 0) none (fun _ => 7)).1.round_keys
        = some (generate_keys 1 (fun _ => 7))
      ∧ decrypt ⟨1, some [KeyInput.int 7, KeyInput.int 7]⟩ (.int 3) none
        = (⟨1, some [KeyInput.int 7, KeyInput.int 7]⟩,
            decryptBody 1 [KeyInput.int 7, KeyInput.int 7] 3) :=
  c5_amended_keyless_behaviour ⟨1, none⟩ 0 (fun _ => 7) 1 [KeyInput.int 7, KeyInput.int 7]
    3 (by decide)

/-- C6 counterexample: a keyless `encrypt` call that fails (invalid block
`65536`) still persists a freshly generated key cache: the cached keys
change from `[1, 1]` to `[3, 3]` although the call raises `ValueError`,
because `self.round_keys = self.generate_keys()` runs before the state
check in the first `add_round_key`. -/
theorem c6_failing_encrypt_mutates_cache :
    ((encrypt ⟨1, some [KeyInput.int 1, KeyInput.int 1]⟩ (.int 65536) none (fun _ => 3)).2
        = .error PyErr.valueError)
      ∧ ((encrypt ⟨1, some [KeyInput.int 1, KeyInput.int 1]⟩ (.int 65536) none
          (fun _ => 3)).1.round_keys = some [KeyInput.int 3, KeyInput.int 3])
      ∧ (some [KeyInput.int 3, KeyInput.int 3] ≠ some [KeyInput.int 1, KeyInput.int 1]) := by
  decide

/-- C6 amended: with an explicitly supplied non-empty key list `encrypt`
never mutates the engine (whether it fails or succeeds), and `decrypt`
never mutates the engine at all; only a keyless (or empty-keys) `encrypt`
call mutates the cache, and it does so even when the call then fails. -/
theorem c6_amended_no_mutation_with_supplied_keys (e : Engine) (pt ct : KeyInput)
    (ks : List KeyInput) (h : ks ≠ []) (okeys : Option (List KeyInput)) (rand : Nat → Nat) :
    (encrypt e pt (some ks) rand).1 = e ∧ (decrypt e ct okeys).1 = e := by
  refine ⟨?_, decrypt_fst e ct okeys⟩
  cases pt <;> simp [encrypt, iter_to_int, keysOmitted_false h]

/-- Witness for the amended C6. -/
theorem c6_amended_witness :
    (encrypt ⟨5, none⟩ (KeyInput.int 1) (some [KeyInput.int 2]) (fun _ => 0)).1 = ⟨5, none⟩
      ∧ (decrypt ⟨5, none⟩ (KeyInput.int 1) none).1 = ⟨5, none⟩ :=
  c6_amended_no_mutation_with_supplied_keys ⟨5, none⟩ (KeyInput.int 1) (KeyInput.int 1)
    [KeyInput.int 2] (by decide) none (fun _ => 0)

/-- C7: the P-box maps bit position `i` to `(i mod 4) * 4 + i / 4` for
every `i < 16`, and the permutation layer is an involution on every
16-bit state (`perm_layer` succeeds and applying the permutation twice is
the identity). -/
theorem c7_pbox_formula_and_involution :
    (∀ i < 16, pbox.getD i 0 = (i % 4) * 4 + i / 4)
      ∧ (∀ s < 65536, perm_layer s = .ok (permLayerPure s)
          ∧ permLayerPure (permLayerPure s) = s) := by
  refine ⟨by decide, fun s hs => ⟨perm_layer_ok hs, permLayerPure_invol s ?_⟩⟩
  norm_num
  exact hs

/-- Witness for C7 at bit position `1` and state `0x1234`. -/
theorem c7_witness :
    pbox.getD 1 0 = (1 % 4) * 4 + 1 / 4
      ∧ (perm_layer 0x1234 = .ok (permLayerPure 0x1234)
          ∧ permLayerPure (permLayerPure 0x1234) = 0x1234) :=
  ⟨c7_pbox_formula_and_involution.1 1 (by decide),
    c7_pbox_formula_and_involution.2 0x1234 (by decide)⟩

/-- C8: the S-box sends `0 .. 15` to
`6, 4, 12, 5, 0, 7, 2, 14, 1, 15, 3, 13, 8, 10, 9, 11`, and the inverse
S-box undoes it on every nibble in both directions. -/
theorem c8_sbox_bijection :
    (List.range 16).map sbox = [6, 4, 12, 5, 0, 7, 2, 14, 1, 15, 3, 13, 8, 10, 9, 11]
      ∧ (∀ n < 16, invSbox (sbox n) = n ∧ sbox (invSbox n) = n) := by decide

/-- Witness for C8 at nibble `5`. -/
theorem c8_witness : invSbox (sbox 5) = 5 ∧ sbox (invSbox 5) = 5 :=
  c8_sbox_bijection.2 5 (by decide)

/-- C9: `decrypt` with no keys supplied and none cached raises
`MissingKeyMaterial` (for any valid 16-bit ciphertext). -/
theorem c9_decrypt_no_keys_no_cache (R c : Nat) (hc : c < 65536) :
    (decrypt ⟨R, none⟩ (.int c) none).2 = .error PyErr.missingKey := by
  simp [decrypt, iter_to_int, not_invalid_of_lt hc]

/-- Witness for C9 at `rounds = 5`, ciphertext `3`. -/
theorem c9_witness : (decrypt ⟨5, none⟩ (.int 3) none).2 = .error PyErr.missingKey :=
  c9_decrypt_no_keys_no_cache 5 3 (by decide)

/-- C10: on a 16-bit state and a 16-bit integer key, each layer operation
succeeds and returns a 16-bit value: the block invariant is preserved by
`sbox_layer` (both directions), `perm_layer` and `add_round_key`. -/
theorem c10_layers_preserve_16bit (s k : Nat) (hs : s < 65536) (hk : k < 65536) :
    (sbox_layer s false = .ok (sboxLayerPure s false) ∧ sboxLayerPure s false < 65536)
      ∧ (sbox_layer s true = .ok (sboxLayerPure s true) ∧ sboxLayerPure s true < 65536)
      ∧ (perm_layer s = .ok (permLayerPure s) ∧ permLayerPure s < 65536)
      ∧ (add_round_key s (.int k) = .ok (s ^^^ k) ∧ s ^^^ k < 65536) :=
  ⟨⟨sbox_layer_ok hs false, sboxLayerPure_lt s false⟩,
    ⟨sbox_layer_ok hs true, sboxLayerPure_lt s true⟩,
    ⟨perm_layer_ok hs, permLayerPure_lt65536 s⟩,
    ⟨add_round_key_ok hs k, xor_lt65536 hs hk⟩⟩

/-- Witness for C10 at state `0x1234` and key `0xfffe`. -/
theorem c10_witness :
    (sbox_layer 0x1234 false = .ok (sboxLayerPure 0x1234 false)
        ∧ sboxLayerPure 0x1234 false < 65536)
      ∧ (sbox_layer 0x1234 true = .ok (sboxLayerPure 0x1234 true)
          ∧ sboxLayerPure 0x1234 true < 65536)
      ∧ (perm_layer 0x1234 = .ok (permLayerPure 0x1234) ∧ permLayerPure 0x1234 < 65536)
      ∧ (add_round_key 0x1234 (.int 0xfffe) = .ok (0x1234 ^^^ 0xfffe)
          ∧ 0x1234 ^^^ 0xfffe < 65536) :=
  c10_layers_preserve_16bit 0x1234 0xfffe (by decide) (by decide)

end CipherFour

